import Mathlib

/-!
Verification of scripts/generate_screenshot.py.

The script renders a text transcript into one or more terminal-style
images: it prompt-prefixes the first three lines, measures every
displayed line with the active font, greedily paginates the measured
lines under a maximum page height, and draws each page (prompt-prefixed
lines get a two-color split).

Python strings are embedded as lists of characters (Python indexing and
slicing are character-based).  The font measurement routine
get_text_size is an external collaborator and is a parameter
(measure : Str -> Nat x Nat, returning the pixel width and height of a
displayed line).  File-system and process effects are embedded as an
explicit effect trace.
-/

/-- A Python string: a sequence of characters. -/
abbrev Str := List Char

/-- LINE_SPACING constant of the script. -/
def LINE_SPACING : Nat := 5

/-- PADDING constant of the script. -/
def PADDING : Nat := 20

/-- MAX_IMAGE_HEIGHT constant of the script. -/
def MAX_IMAGE_HEIGHT : Nat := 800

/-- PROMPT constant of the script. -/
def PROMPT : Str := ['$', ' ']

/-- TEXT_COLOR constant of the script. -/
def TEXT_COLOR : String := "#E5E9F0"

/-- PROMPT_COLOR constant of the script. -/
def PROMPT_COLOR : String := "#A3BE8C"

/-- BG_COLOR constant of the script. -/
def BG_COLOR : String := "#2E3440"

/-- INPUT_FILE constant of the script. -/
def INPUT_FILE : Str := "output/live_run.txt".toList

/-- The output file name stem constant of the script
(source name: OUTPUT_FILE followed by an underscore and the word PREFIX). -/
def OUTPUT_FILE_BASE : Str := "output/screenshot".toList

/-- The loop building styled_lines: the counter i runs over the input
lines, and lines with i < 3 get the prompt prepended. -/
def styleGo : Nat → List Str → List Str
  | _, [] => []
  | i, line :: rest => (if i < 3 then PROMPT ++ line else line) :: styleGo (i + 1) rest

/-- styled_lines as built by the script from the raw input lines. -/
def styleLines (raw : List Str) : List Str := styleGo 0 raw

/-- line_heights: the measured height of every styled line, in order. -/
def lineHeights (measure : Str → Nat × Nat) (styled : List Str) : List Nat :=
  styled.map fun s => (measure s).2

/-- max_width: starts at 0 and folds max over the measured widths of the
styled lines, in loop order. -/
def maxWidth (measure : Str → Nat × Nat) (styled : List Str) : Nat :=
  styled.foldl (fun acc s => max acc (measure s).1) 0

/-- One output page: its 1-based part number, the index of its first
line in styled_lines, its lines, its final part_height_calculator value
(top padding + sum of line height + spacing + bottom padding), and the
width of the image created for it. -/
structure Page where
  partNumber : Nat
  startIndex : Nat
  lines : List Str
  totalHeight : Nat
  imageWidth : Nat
deriving DecidableEq, Repr

/-- The inner pagination loop of the script.  State: the lines not yet
consumed (paired with their heights), part_height_calculator, and
lines_for_this_part.  Returns the page lines, the accumulated height
(before bottom padding) and the remaining line/height pairs.  A line is
rejected exactly when adding it would push the accumulator past
maxH and the page already has at least one line. -/
def fillPage (spacing maxH : Nat) : List (Str × Nat) → Nat → List Str → List Str × Nat × List (Str × Nat)
  | [], acc, page => (page, acc, [])
  | (s, h) :: rest, acc, page =>
    if acc + (h + spacing) > maxH ∧ page ≠ [] then (page, acc, (s, h) :: rest)
    else fillPage spacing maxH rest (acc + (h + spacing)) (page ++ [s])

/-- The outer pagination loop.  Each iteration starts a page at the
current position with part_height_calculator = padding, fills it with
the inner loop, adds the bottom padding, and emits the page.  The fuel
argument bounds the number of pages; every call supplies fuel at least
the number of remaining lines, which always suffices because each page
consumes at least one line. -/
def paginateLoop (spacing padding maxH imgW : Nat) : Nat → Nat → Nat → List (Str × Nat) → List Page
  | _, _, _, [] => []
  | 0, _, _, _ :: _ => []
  | fuel + 1, partNo, startIdx, x :: rest =>
    let r := fillPage spacing maxH (x :: rest) padding []
    ⟨partNo, startIdx, r.1, r.2.1 + padding, imgW⟩ ::
      paginateLoop spacing padding maxH imgW fuel (partNo + 1) (startIdx + r.1.length) r.2.2

/-- The full measurement-plus-pagination pipeline of main: style the raw
lines, measure them, and paginate with the script constants; every page
records the common image width max_width + 2 * PADDING. -/
def mainPages (measure : Str → Nat × Nat) (raw : List Str) : List Page :=
  let styled := styleLines raw
  let zipped := styled.zip (lineHeights measure styled)
  paginateLoop LINE_SPACING PADDING MAX_IMAGE_HEIGHT
    (maxWidth measure styled + PADDING * 2) zipped.length 1 0 zipped

/-- A constant measurement function: every line measures (w, h). -/
def measureConst (w h : Nat) : Str → Nat × Nat := fun _ => (w, h)

/-- One text-drawing call: position, drawn text, and fill color. -/
structure DrawOp where
  x : Nat
  y : Nat
  text : Str
  color : String
deriving DecidableEq, Repr

/-- The body of the per-line drawing loop: a line whose text starts with
the prompt string is drawn as the prompt substring in the prompt color
at x = PADDING followed by the rest of the line (the text after the
prompt, a character-based slice) in the text color at
x = PADDING + prompt width; any other line is drawn whole in the text
color at x = PADDING. -/
def drawLine (pw y : Nat) (line : Str) : List DrawOp :=
  if PROMPT.isPrefixOf line then
    [⟨PADDING, y, PROMPT, PROMPT_COLOR⟩, ⟨PADDING + pw, y, line.drop PROMPT.length, TEXT_COLOR⟩]
  else
    [⟨PADDING, y, line, TEXT_COLOR⟩]

/-- The drawing loop of one page, one entry per page line: y starts at
PADDING and advances by line_heights[original index] + LINE_SPACING,
where the original index is the page's start index plus the loop
counter. -/
def renderLinesGo (pw : Nat) (heights : List Nat) : Nat → Nat → List Str → List (List DrawOp)
  | _, _, [] => []
  | idx, y, line :: rest =>
    drawLine pw y line :: renderLinesGo pw heights (idx + 1) (y + (heights.getD idx 0 + LINE_SPACING)) rest

/-- The draw calls of one page, grouped per line.  The prompt width is
measured from the same measurement routine the script uses. -/
def renderPage (measure : Str → Nat × Nat) (heights : List Nat) (p : Page) : List (List DrawOp) :=
  renderLinesGo (measure PROMPT).1 heights p.startIndex PADDING p.lines

/-- All draw calls of the run, grouped per drawn line, pages in order.
Because the pages partition styled_lines in order, entry i is exactly
the drawing of styled line i. -/
def mainRenderPerLine (measure : Str → Nat × Nat) (raw : List Str) : List (List DrawOp) :=
  let heights := lineHeights measure (styleLines raw)
  ((mainPages measure raw).map (renderPage measure heights)).flatten

/-- An observable effect of running the script: directory creation,
a message on stderr, a process exit, an image file written, or a message
on stdout. -/
inductive Effect where
  | makedirs (path : Str)
  | printErr (msg : Str)
  | exitCode (code : Nat)
  | saveImage (filename : Str)
  | printOut (msg : Str)
deriving DecidableEq, Repr

/-- Whether an effect writes an image file. -/
def Effect.isSave : Effect → Bool
  | .saveImage _ => true
  | _ => false

/-- os.path.dirname for the simple relative paths the script uses:
everything before the last slash (empty when there is no slash). -/
def dirnameList : Str → Str
  | [] => []
  | c :: rest => if '/' ∈ rest then c :: dirnameList rest else []

/-- The name of the image file of part n. -/
def partFilename (n : Nat) : Str :=
  OUTPUT_FILE_BASE ++ ['_'] ++ (Nat.repr n).toList ++ ".png".toList

/-- The effect trace of main.  fsInput is the content of the input
transcript (none when the file is missing); dirExists is whether the
output directory already exists.  The script first creates the output
directory when its name is nonempty and it does not exist, then opens
the input file: on FileNotFoundError it prints a diagnostic to stderr
and exits with status 1; otherwise it runs the pipeline and, per page,
saves the image and prints a progress message. -/
def mainEffects (measure : Str → Nat × Nat) (fsInput : Option (List Str)) (dirExists : Bool) : List Effect :=
  let outputDir := dirnameList OUTPUT_FILE_BASE
  let dirFx : List Effect := if outputDir ≠ [] ∧ dirExists = false then [.makedirs outputDir] else []
  match fsInput with
  | none => dirFx ++ [.printErr ("Error: Input file '".toList ++ INPUT_FILE ++ "' not found.".toList), .exitCode 1]
  | some raw =>
    dirFx ++ ((mainPages measure raw).map fun p =>
      [Effect.saveImage (partFilename p.partNumber),
       Effect.printOut ("Screenshot part saved to '".toList ++ partFilename p.partNumber ++ ['\''])]).flatten

/-- A page as described by the specification: part number, the value of
current_index when the page was started, the page's lines, and the
finalized page height. -/
structure SpecPage where
  partNumber : Nat
  startIndex : Nat
  lines : List Str
  totalHeight : Nat
deriving DecidableEq, Repr

/-- The specification's reference inner loop, following its words:
repeatedly compute line_h = height[current_index] + line_spacing; if
running_height + line_h > max_page_height and the page already has at
least one line, stop without advancing current_index; otherwise add the
line, add line_h to the running height, and advance current_index.  The
loop also stops when current_index reaches line_count.  The fuel
argument is always called with at least line_count - current_index, so
it never cuts the loop short.  Returns (page lines, running height,
current_index). -/
def specFillPage (styled : List Str) (heights : List Nat) (spacing maxH : Nat) :
    Nat → Nat → Nat → List Str → List Str × Nat × Nat
  | 0, idx, running, page => (page, running, idx)
  | fuel + 1, idx, running, page =>
    if idx < styled.length then
      if running + (heights.getD idx 0 + spacing) > maxH ∧ page ≠ [] then (page, running, idx)
      else specFillPage styled heights spacing maxH fuel (idx + 1)
        (running + (heights.getD idx 0 + spacing)) (page ++ [styled.getD idx []])
    else (page, running, idx)

/-- The specification's reference outer loop: while
current_index < line_count, start a page at current_index with running
height padding, fill it, finalize its height as running height +
padding, emit it and increment part_number.  Fuel is always called with
at least line_count, which suffices because every page consumes at
least one line. -/
def specPagesLoop (styled : List Str) (heights : List Nat) (spacing padding maxH : Nat) :
    Nat → Nat → Nat → List SpecPage
  | 0, _, _ => []
  | fuel + 1, idx, partNo =>
    if idx < styled.length then
      let r := specFillPage styled heights spacing maxH (styled.length - idx) idx padding []
      ⟨partNo, idx, r.1, r.2.1 + padding⟩ ::
        specPagesLoop styled heights spacing padding maxH fuel r.2.2 (partNo + 1)
    else []

/-- The specification's reference pagination algorithm, starting at
current_index = 0 and part_number = 1. -/
def specPaginate (styled : List Str) (heights : List Nat) (spacing padding maxH : Nat) : List SpecPage :=
  specPagesLoop styled heights spacing padding maxH styled.length 0 1

lemma styleGo_length (raw : List Str) : ∀ i, (styleGo i raw).length = raw.length := by
  induction raw with
  | nil => intro i; rfl
  | cons l rest ih => intro i; simp [styleGo, ih]

lemma styleLines_length (raw : List Str) : (styleLines raw).length = raw.length :=
  styleGo_length raw 0

lemma styleGo_getD (raw : List Str) : ∀ i j, j < raw.length →
    (styleGo i raw).getD j [] = if i + j < 3 then PROMPT ++ raw.getD j [] else raw.getD j [] := by
  induction raw with
  | nil => intro i j h; simp at h
  | cons l rest ih =>
    intro i j h
    cases j with
    | zero => simp [styleGo]
    | succ j =>
      simp only [styleGo, List.getD_cons_succ]
      rw [ih (i + 1) j (by simpa using h)]
      have harith : i + 1 + j = i + (j + 1) := by omega
      rw [harith]

lemma foldl_max_init_le (w : Str → Nat) (l : List Str) : ∀ a : Nat,
    a ≤ l.foldl (fun acc s => max acc (w s)) a := by
  induction l with
  | nil => intro a; simp
  | cons s rest ih => intro a; exact le_trans (le_max_left a (w s)) (ih (max a (w s)))

lemma foldl_max_mem_le (w : Str → Nat) (l : List Str) : ∀ (a : Nat) (x : Str), x ∈ l →
    w x ≤ l.foldl (fun acc s => max acc (w s)) a := by
  induction l with
  | nil => intro a x hx; cases hx
  | cons s rest ih =>
    intro a x hx
    simp only [List.foldl_cons]
    rcases List.mem_cons.mp hx with h | h
    · subst h; exact le_trans (le_max_right a (w x)) (foldl_max_init_le w rest (max a (w x)))
    · exact ih (max a (w s)) x h

lemma foldl_max_attained (w : Str → Nat) (l : List Str) : ∀ a : Nat,
    l.foldl (fun acc s => max acc (w s)) a = a ∨
      ∃ x ∈ l, l.foldl (fun acc s => max acc (w s)) a = w x := by
  induction l with
  | nil => intro a; left; rfl
  | cons s rest ih =>
    intro a
    simp only [List.foldl_cons]
    rcases ih (max a (w s)) with h | ⟨x, hx, heq⟩
    · rcases max_choice a (w s) with hm | hm
      · left; rw [h, hm]
      · right; exact ⟨s, List.mem_cons_self s rest, by rw [h, hm]⟩
    · right; exact ⟨x, List.mem_cons_of_mem s hx, heq⟩

lemma fillPage_rem_length (sp mx : Nat) : ∀ (l : List (Str × Nat)) (acc : Nat) (page : List Str),
    (fillPage sp mx l acc page).2.2.length ≤ l.length := by
  intro l
  induction l with
  | nil => intro acc page; simp [fillPage]
  | cons x rest ih =>
    intro acc page
    obtain ⟨xs, xh⟩ := x
    by_cases h : acc + (xh + sp) > mx ∧ page ≠ []
    · simp [fillPage, h]
    · simp only [fillPage, if_neg h]
      exact le_trans (ih _ _) (Nat.le_succ _)

lemma fillPage_cons_nil (sp mx : Nat) (x : Str × Nat) (rest : List (Str × Nat)) (acc : Nat) :
    fillPage sp mx (x :: rest) acc [] = fillPage sp mx rest (acc + (x.2 + sp)) [x.1] := by
  obtain ⟨xs, xh⟩ := x
  simp [fillPage]

lemma fillPage_lines_append (sp mx : Nat) : ∀ (l : List (Str × Nat)) (acc : Nat) (page : List Str),
    (fillPage sp mx l acc page).1 ++ (fillPage sp mx l acc page).2.2.map Prod.fst =
      page ++ l.map Prod.fst := by
  intro l
  induction l with
  | nil => intro acc page; simp [fillPage]
  | cons x rest ih =>
    intro acc page
    obtain ⟨xs, xh⟩ := x
    by_cases h : acc + (xh + sp) > mx ∧ page ≠ []
    · simp [fillPage, h]
    · simp only [fillPage, if_neg h]
      rw [ih]
      simp

lemma fillPage_lines_length_ge (sp mx : Nat) (l : List (Str × Nat)) (acc : Nat) (page : List Str) :
    page.length ≤ (fillPage sp mx l acc page).1.length := by
  have h := congrArg List.length (fillPage_lines_append sp mx l acc page)
  simp only [List.length_append, List.length_map] at h
  have h2 := fillPage_rem_length sp mx l acc page
  omega

lemma fillPage_height (sp mx : Nat) : ∀ (l : List (Str × Nat)) (acc : Nat) (page : List Str),
    ((page ≠ [] → acc ≤ mx) ∨ page.length = 1) →
    (fillPage sp mx l acc page).2.1 ≤ mx ∨ (fillPage sp mx l acc page).1.length ≤ 1 := by
  intro l
  induction l with
  | nil =>
    intro acc page hinv
    rcases hinv with h | h
    · by_cases hp : page = []
      · right; simp [fillPage, hp]
      · left; simpa [fillPage] using h hp
    · right; simpa [fillPage] using le_of_eq h
  | cons x rest ih =>
    intro acc page hinv
    obtain ⟨xs, xh⟩ := x
    by_cases h : acc + (xh + sp) > mx ∧ page ≠ []
    · rcases hinv with hinv | hinv
      · left; simpa [fillPage, h] using hinv h.2
      · right; simpa [fillPage, h] using le_of_eq hinv
    · simp only [fillPage, if_neg h]
      apply ih
      by_cases hle : acc + (xh + sp) ≤ mx
      · exact Or.inl fun _ => hle
      · have hgt : acc + (xh + sp) > mx := Nat.lt_of_not_le hle
        have hpe : page = [] := by
          by_contra hne
          exact h ⟨hgt, hne⟩
        subst hpe
        exact Or.inr (by simp)

lemma paginateLoop_flatten (sp pad mx w : Nat) : ∀ (fuel : Nat) (l : List (Str × Nat)) (pn si : Nat),
    l.length ≤ fuel →
    ((paginateLoop sp pad mx w fuel pn si l).map Page.lines).flatten = l.map Prod.fst := by
  intro fuel
  induction fuel with
  | zero =>
    intro l pn si hl
    have he : l = [] := List.eq_nil_of_length_eq_zero (Nat.le_zero.mp hl)
    subst he; rfl
  | succ fuel ih =>
    intro l pn si hl
    cases l with
    | nil => rfl
    | cons x rest =>
      simp only [paginateLoop, List.map_cons, List.flatten_cons]
      have hrem : (fillPage sp mx (x :: rest) pad []).2.2.length ≤ fuel := by
        rw [fillPage_cons_nil]
        have h1 := fillPage_rem_length sp mx rest (pad + (x.2 + sp)) [x.1]
        have h2 : rest.length + 1 ≤ fuel + 1 := by simpa using hl
        omega
      rw [ih _ (pn + 1) _ hrem]
      have hfl := fillPage_lines_append sp mx (x :: rest) pad []
      simpa using hfl

lemma paginateLoop_length_le (sp pad mx w : Nat) : ∀ (fuel : Nat) (l : List (Str × Nat)) (pn si : Nat),
    l.length ≤ fuel → (paginateLoop sp pad mx w fuel pn si l).length ≤ l.length := by
  intro fuel
  induction fuel with
  | zero =>
    intro l pn si hl
    have he : l = [] := List.eq_nil_of_length_eq_zero (Nat.le_zero.mp hl)
    subst he; simp [paginateLoop]
  | succ fuel ih =>
    intro l pn si hl
    cases l with
    | nil => simp [paginateLoop]
    | cons x rest =>
      simp only [paginateLoop, List.length_cons]
      have hr1 : (fillPage sp mx (x :: rest) pad []).2.2.length ≤ rest.length := by
        rw [fillPage_cons_nil]
        exact fillPage_rem_length sp mx rest (pad + (x.2 + sp)) [x.1]
      have hrem : (fillPage sp mx (x :: rest) pad []).2.2.length ≤ fuel := by
        have h2 : rest.length + 1 ≤ fuel + 1 := by simpa using hl
        omega
      have := ih _ (pn + 1) (si + (fillPage sp mx (x :: rest) pad []).1.length) hrem
      omega

lemma paginateLoop_mem_imageWidth (sp pad mx w : Nat) : ∀ (fuel : Nat) (l : List (Str × Nat)) (pn si : Nat),
    ∀ p ∈ paginateLoop sp pad mx w fuel pn si l, p.imageWidth = w := by
  intro fuel
  induction fuel with
  | zero =>
    intro l pn si p hp
    cases l with
    | nil => cases hp
    | cons x rest => cases hp
  | succ fuel ih =>
    intro l pn si p hp
    cases l with
    | nil => cases hp
    | cons x rest =>
      simp only [paginateLoop] at hp
      rcases List.mem_cons.mp hp with h | h
      · subst h; rfl
      · exact ih _ (pn + 1) _ p h

lemma paginateLoop_mem_height (sp pad mx w : Nat) : ∀ (fuel : Nat) (l : List (Str × Nat)) (pn si : Nat),
    ∀ p ∈ paginateLoop sp pad mx w fuel pn si l,
      p.totalHeight ≤ mx + pad ∨ p.lines.length = 1 := by
  intro fuel
  induction fuel with
  | zero =>
    intro l pn si p hp
    cases l with
    | nil => cases hp
    | cons x rest => cases hp
  | succ fuel ih =>
    intro l pn si p hp
    cases l with
    | nil => cases hp
    | cons x rest =>
      simp only [paginateLoop] at hp
      rcases List.mem_cons.mp hp with h | h
      · subst h
        have hh := fillPage_height sp mx (x :: rest) pad []
          (Or.inl fun hc => absurd rfl hc)
        have hge : 1 ≤ (fillPage sp mx (x :: rest) pad []).1.length := by
          rw [fillPage_cons_nil]
          exact fillPage_lines_length_ge sp mx rest (pad + (x.2 + sp)) [x.1]
        rcases hh with hh | hh
        · left; simpa using Nat.add_le_add_right hh pad
        · right; simp only; omega
      · exact ih _ (pn + 1) _ p h

lemma mainPages_flatten (measure : Str → Nat × Nat) (raw : List Str) :
    ((mainPages measure raw).map Page.lines).flatten = styleLines raw := by
  simp only [mainPages]
  rw [paginateLoop_flatten _ _ _ _ _ _ _ _ le_rfl]
  exact List.map_fst_zip _ _ (by simp [lineHeights])

lemma mainPages_length_le (measure : Str → Nat × Nat) (raw : List Str) :
    (mainPages measure raw).length ≤ raw.length := by
  simp only [mainPages]
  have h := paginateLoop_length_le LINE_SPACING PADDING MAX_IMAGE_HEIGHT
    (maxWidth measure (styleLines raw) + PADDING * 2)
    ((styleLines raw).zip (lineHeights measure (styleLines raw))).length
    ((styleLines raw).zip (lineHeights measure (styleLines raw))) 1 0 le_rfl
  have hz : ((styleLines raw).zip (lineHeights measure (styleLines raw))).length = raw.length := by
    rw [List.length_zip]
    simp [lineHeights, styleLines_length]
  omega

lemma renderLinesGo_colors (pw : Nat) (hs : List Nat) : ∀ (ls : List Str) (idx y : Nat),
    (renderLinesGo pw hs idx y ls).map (fun ops => ops.map DrawOp.color) =
      ls.map (fun l => if PROMPT.isPrefixOf l then [PROMPT_COLOR, TEXT_COLOR] else [TEXT_COLOR]) := by
  intro ls
  induction ls with
  | nil => intro idx y; rfl
  | cons line rest ih =>
    intro idx y
    simp only [renderLinesGo, List.map_cons, ih]
    by_cases h : PROMPT.isPrefixOf line = true
    · simp [drawLine, h]
    · simp [drawLine, h]

lemma mainRender_colors (measure : Str → Nat × Nat) (raw : List Str) :
    (mainRenderPerLine measure raw).map (fun ops => ops.map DrawOp.color) =
      (styleLines raw).map
        (fun l => if PROMPT.isPrefixOf l then [PROMPT_COLOR, TEXT_COLOR] else [TEXT_COLOR]) := by
  simp only [mainRenderPerLine]
  rw [List.map_flatten]
  have hmaps : ((mainPages measure raw).map
        (renderPage measure (lineHeights measure (styleLines raw)))).map
        (List.map fun ops => ops.map DrawOp.color) =
      ((mainPages measure raw).map Page.lines).map
        (List.map fun l => if PROMPT.isPrefixOf l then [PROMPT_COLOR, TEXT_COLOR] else [TEXT_COLOR]) := by
    rw [List.map_map, List.map_map]
    apply List.map_congr_left
    intro p _
    simp only [Function.comp]
    exact renderLinesGo_colors _ _ p.lines p.startIndex PADDING
  rw [hmaps, ← List.map_flatten, mainPages_flatten]

lemma specFill_eq (styled : List Str) (heights : List Nat) (sp mx : Nat)
    (hlen : heights.length = styled.length) :
    ∀ (fuel idx acc : Nat) (page : List Str), styled.length - idx ≤ fuel →
      specFillPage styled heights sp mx fuel idx acc page =
        ((fillPage sp mx ((styled.zip heights).drop idx) acc page).1,
         (fillPage sp mx ((styled.zip heights).drop idx) acc page).2.1,
         idx + ((fillPage sp mx ((styled.zip heights).drop idx) acc page).1.length - page.length)) ∧
      (styled.zip heights).drop
          (idx + ((fillPage sp mx ((styled.zip heights).drop idx) acc page).1.length - page.length)) =
        (fillPage sp mx ((styled.zip heights).drop idx) acc page).2.2 := by
  have hz : (styled.zip heights).length = styled.length := by
    rw [List.length_zip, hlen]; exact min_self _
  intro fuel
  induction fuel with
  | zero =>
    intro idx acc page hf
    have hdrop : (styled.zip heights).drop idx = [] := List.drop_eq_nil_of_le (by omega)
    rw [hdrop]
    simp [specFillPage, fillPage, hdrop]
  | succ fuel ih =>
    intro idx acc page hf
    by_cases hidx : idx < styled.length
    · have hidh : idx < heights.length := by omega
      have hiz : idx < (styled.zip heights).length := by omega
      have hdropc : (styled.zip heights).drop idx =
          (styled.zip heights)[idx] :: (styled.zip heights).drop (idx + 1) :=
        List.drop_eq_getElem_cons hiz
      have hget : (styled.zip heights)[idx] = (styled[idx], heights[idx]) := List.getElem_zip
      have hgd1 : styled.getD idx [] = styled[idx] := List.getD_eq_getElem styled [] hidx
      have hgd2 : heights.getD idx 0 = heights[idx] := List.getD_eq_getElem heights 0 hidh
      rw [hdropc, hget]
      simp only [specFillPage, if_pos hidx, hgd1, hgd2, fillPage]
      by_cases hcond : acc + (heights[idx] + sp) > mx ∧ page ≠ []
      · rw [if_pos hcond, if_pos hcond]
        constructor
        · simp
        · simp only [Nat.sub_self, Nat.add_zero]
          rw [← hget, ← hdropc]
      · rw [if_neg hcond, if_neg hcond]
        have hf' : styled.length - (idx + 1) ≤ fuel := by omega
        obtain ⟨ih1, ih2⟩ :=
          ih (idx + 1) (acc + (heights[idx] + sp)) (page ++ [styled[idx]]) hf'
        have hPge := fillPage_lines_length_ge sp mx ((styled.zip heights).drop (idx + 1))
          (acc + (heights[idx] + sp)) (page ++ [styled[idx]])
        simp only [List.length_append, List.length_cons, List.length_nil] at hPge
        have harith : idx + 1 +
            ((fillPage sp mx ((styled.zip heights).drop (idx + 1))
              (acc + (heights[idx] + sp)) (page ++ [styled[idx]])).1.length -
              (page ++ [styled[idx]]).length) =
            idx + ((fillPage sp mx ((styled.zip heights).drop (idx + 1))
              (acc + (heights[idx] + sp)) (page ++ [styled[idx]])).1.length -
              page.length) := by
          simp only [List.length_append, List.length_cons, List.length_nil]
          omega
        constructor
        · rw [ih1, harith]
        · rw [← harith]
          exact ih2
    · have hdrop : (styled.zip heights).drop idx = [] := List.drop_eq_nil_of_le (by omega)
      rw [hdrop]
      simp [specFillPage, fillPage, hidx, hdrop]

lemma specLoop_eq (styled : List Str) (heights : List Nat) (sp pad mx w : Nat)
    (hlen : heights.length = styled.length) :
    ∀ (fuelS fuelC idx partNo : Nat),
      styled.length - idx ≤ fuelS → ((styled.zip heights).drop idx).length ≤ fuelC →
      specPagesLoop styled heights sp pad mx fuelS idx partNo =
        (paginateLoop sp pad mx w fuelC partNo idx ((styled.zip heights).drop idx)).map
          (fun p => ⟨p.partNumber, p.startIndex, p.lines, p.totalHeight⟩) := by
  have hz : (styled.zip heights).length = styled.length := by
    rw [List.length_zip, hlen]; exact min_self _
  intro fuelS
  induction fuelS with
  | zero =>
    intro fuelC idx partNo hfs hfc
    have hdrop : (styled.zip heights).drop idx = [] := List.drop_eq_nil_of_le (by omega)
    rw [hdrop]
    cases fuelC <;> simp [specPagesLoop, paginateLoop]
  | succ fuelS ih =>
    intro fuelC idx partNo hfs hfc
    by_cases hidx : idx < styled.length
    · have hiz : idx < (styled.zip heights).length := by omega
      have hlen_drop : ((styled.zip heights).drop idx).length = styled.length - idx := by
        rw [List.length_drop, hz]
      obtain ⟨x, rest, hxr⟩ : ∃ x rest, (styled.zip heights).drop idx = x :: rest := by
        cases hcase : (styled.zip heights).drop idx with
        | nil => rw [hcase] at hlen_drop; simp at hlen_drop; omega
        | cons x rest => exact ⟨x, rest, rfl⟩
      obtain ⟨h1, h2⟩ := specFill_eq styled heights sp mx hlen (styled.length - idx) idx pad [] le_rfl
      simp only [List.length_nil, Nat.sub_zero] at h1 h2
      have hP1 : 1 ≤ (fillPage sp mx ((styled.zip heights).drop idx) pad []).1.length := by
        rw [hxr, fillPage_cons_nil]
        exact fillPage_lines_length_ge sp mx rest (pad + (x.2 + sp)) [x.1]
      have hfc1 : styled.length - idx ≤ fuelC := by rw [hlen_drop] at hfc; exact hfc
      obtain ⟨fc, rfl⟩ : ∃ fc, fuelC = fc + 1 := ⟨fuelC - 1, by omega⟩
      simp only [specPagesLoop, if_pos hidx]
      rw [h1]
      conv_rhs => rw [hxr]
      simp only [paginateLoop, List.map_cons]
      rw [← hxr]
      congr 1
      rw [ih fc (idx + (fillPage sp mx ((styled.zip heights).drop idx) pad []).1.length)
        (partNo + 1) (by omega) (by rw [List.length_drop, hz]; omega), h2]
    · have hdrop : (styled.zip heights).drop idx = [] := List.drop_eq_nil_of_le (by omega)
      rw [hdrop]
      simp [specPagesLoop, paginateLoop, hidx]

lemma maxWidth_mem_le (measure : Str → Nat × Nat) (styled : List Str) (s : Str) (hs : s ∈ styled) :
    (measure s).1 ≤ maxWidth measure styled :=
  foldl_max_mem_le (fun s => (measure s).1) styled 0 s hs

lemma maxWidth_attained (measure : Str → Nat × Nat) (styled : List Str) :
    maxWidth measure styled = 0 ∨ ∃ x ∈ styled, maxWidth measure styled = (measure x).1 :=
  foldl_max_attained (fun s => (measure s).1) styled 0

lemma mainEffects_none_false (measure : Str → Nat × Nat) :
    mainEffects measure none false =
      [.makedirs "output".toList,
       .printErr ("Error: Input file '".toList ++ INPUT_FILE ++ "' not found.".toList),
       .exitCode 1] := rfl

lemma mainEffects_none_true (measure : Str → Nat × Nat) :
    mainEffects measure none true =
      [.printErr ("Error: Input file '".toList ++ INPUT_FILE ++ "' not found.".toList),
       .exitCode 1] := rfl

/-- C1 (counterexample): the claim that every page's total_height is at
most MAX_IMAGE_HEIGHT unless the page has exactly one line fails: 31
input lines of height 20 fit on one page (the budget check does not
include the bottom padding), giving a 31-line page of total height 815
which exceeds 800. -/
theorem c1_counterexample :
    ¬ ∀ p ∈ mainPages (measureConst 10 20) (List.replicate 31 ['x']),
        p.totalHeight ≤ MAX_IMAGE_HEIGHT ∨ p.lines.length = 1 := by decide

/-- C1 (amended): every produced page's total_height is at most
MAX_IMAGE_HEIGHT + PADDING (the bottom padding is added after the budget
check), except that a page may exceed even that bound only if it
contains exactly one line. -/
theorem c1_total_height_bounded (measure : Str → Nat × Nat) (raw : List Str) (p : Page)
    (hp : p ∈ mainPages measure raw) :
    p.totalHeight ≤ MAX_IMAGE_HEIGHT + PADDING ∨ p.lines.length = 1 := by
  simp only [mainPages] at hp
  exact paginateLoop_mem_height _ _ _ _ _ _ _ _ p hp

/-- C1 (witness): the amended bound evaluated on a one-line input. -/
theorem c1_total_height_bounded_witness :
    (⟨1, 0, [['$', ' ', 'x']], 65, 50⟩ : Page) ∈ mainPages (measureConst 10 20) [['x']] ∧
    ((⟨1, 0, [['$', ' ', 'x']], 65, 50⟩ : Page).totalHeight ≤ MAX_IMAGE_HEIGHT + PADDING ∨
      (⟨1, 0, [['$', ' ', 'x']], 65, 50⟩ : Page).lines.length = 1) :=
  ⟨by decide, c1_total_height_bounded (measureConst 10 20) [['x']] _ (by decide)⟩

/-- C2: concatenating the lines of all produced pages in pagination
order reproduces the full styled (displayed) line sequence exactly once,
in original order, with no gaps, duplicates or overlaps. -/
theorem c2_pages_cover_lines (measure : Str → Nat × Nat) (raw : List Str) :
    ((mainPages measure raw).map Page.lines).flatten = styleLines raw :=
  mainPages_flatten measure raw

/-- C3 (counterexample): the claim that every line at index at least 3
is drawn entirely in the default text color fails: a raw line at index 3
that itself starts with the prompt string is drawn with the prompt-color
split. -/
theorem c3_counterexample :
    ¬ ∀ op ∈ (mainRenderPerLine (measureConst 10 20) [['a'], ['b'], ['c'], ['$', ' ', 'x']]).getD 3 [],
        op.color = TEXT_COLOR := by decide

/-- C3 (amended): a drawn line gets the prompt substring in the prompt
color followed by the remainder in the text color exactly when its
displayed text starts with the prompt string, and is drawn entirely in
the text color otherwise; lines at indices 0, 1, 2 always start with the
prompt (it is prepended to them), while a line at index at least 3 keeps
its raw text, so it is prompt-colored exactly when its raw text itself
starts with the prompt string. -/
theorem c3_render_colors (measure : Str → Nat × Nat) (raw : List Str) :
    ((mainRenderPerLine measure raw).map (fun ops => ops.map DrawOp.color) =
      (styleLines raw).map
        (fun l => if PROMPT.isPrefixOf l then [PROMPT_COLOR, TEXT_COLOR] else [TEXT_COLOR])) ∧
    (∀ i, i < 3 → i < raw.length → PROMPT.isPrefixOf ((styleLines raw).getD i []) = true) ∧
    (∀ i, 3 ≤ i → (styleLines raw).getD i [] = raw.getD i []) := by
  refine ⟨mainRender_colors measure raw, ?_, ?_⟩
  · intro i h3 hlen
    have hs := styleGo_getD raw 0 i hlen
    simp only [Nat.zero_add] at hs
    rw [styleLines, hs, if_pos h3]
    rw [List.isPrefixOf_iff_prefix]
    exact List.prefix_append PROMPT _
  · intro i h3
    by_cases hlen : i < raw.length
    · have hs := styleGo_getD raw 0 i hlen
      simp only [Nat.zero_add] at hs
      rw [styleLines, hs, if_neg (by omega)]
    · have hge : (styleLines raw).length ≤ i := by rw [styleLines_length]; omega
      have h1 : (styleLines raw).getD i [] = [] := by
        simp [List.getD_eq_getElem?_getD, List.getElem?_eq_none hge]
      have h2 : raw.getD i [] = [] := by
        simp [List.getD_eq_getElem?_getD, List.getElem?_eq_none (by omega : raw.length ≤ i)]
      rw [h1, h2]

/-- C3 (witness): the amended statement evaluated on a four-line input:
line 0 is prompt-prefixed and line 3 is unchanged. -/
theorem c3_render_colors_witness :
    PROMPT.isPrefixOf ((styleLines [['a'], ['b'], ['c'], ['d']]).getD 0 []) = true ∧
    (styleLines [['a'], ['b'], ['c'], ['d']]).getD 3 [] = [['a'], ['b'], ['c'], ['d']].getD 3 [] := by
  have h := c3_render_colors (measureConst 2 3) [['a'], ['b'], ['c'], ['d']]
  exact ⟨h.2.1 0 (by decide) (by decide), h.2.2 3 (by decide)⟩

/-- C4 (counterexample): with 100 identical lines of height 20, spacing
5, padding 20 and maximum page height 800, the pages do not hold
30, 30, 30 and 10 lines. -/
theorem c4_counterexample :
    ¬ ((mainPages (measureConst 10 20) (List.replicate 100 ['x'])).map (fun p => p.lines.length) =
        [30, 30, 30, 10]) := by decide

/-- C4 (amended): with 100 identical lines of height 20, spacing 5,
padding 20 and maximum page height 800, pagination produces exactly 4
pages holding 31, 31, 31 and 7 lines: a full page holds
floor((800 - 20) / 25) = 31 lines, because the budget check starts from
the top padding only and never reserves the bottom padding. -/
theorem c4_pagination_scenario :
    (mainPages (measureConst 10 20) (List.replicate 100 ['x'])).map (fun p => p.lines.length) =
      [31, 31, 31, 7] ∧
    (mainPages (measureConst 10 20) (List.replicate 100 ['x'])).length = 4 ∧
    (MAX_IMAGE_HEIGHT - PADDING) / (20 + LINE_SPACING) = 31 := by decide

/-- C5: the program's pagination agrees, page by page, with the
specification's reference algorithm (same part numbers, start indices,
page lines and page heights). -/
theorem c5_pagination_matches_spec (measure : Str → Nat × Nat) (raw : List Str) :
    specPaginate (styleLines raw) (lineHeights measure (styleLines raw))
        LINE_SPACING PADDING MAX_IMAGE_HEIGHT =
      (mainPages measure raw).map (fun p => ⟨p.partNumber, p.startIndex, p.lines, p.totalHeight⟩) := by
  have hlen : (lineHeights measure (styleLines raw)).length = (styleLines raw).length := by
    simp [lineHeights]
  have h := specLoop_eq (styleLines raw) (lineHeights measure (styleLines raw))
    LINE_SPACING PADDING MAX_IMAGE_HEIGHT
    (maxWidth measure (styleLines raw) + PADDING * 2) hlen
    (styleLines raw).length
    ((styleLines raw).zip (lineHeights measure (styleLines raw))).length 0 1
    (by omega) (by simp)
  simp only [List.drop_zero] at h
  simpa [specPaginate, mainPages] using h

/-- C6: displayed line i is the prompt prepended to raw line i when
i < 3 and the raw line unchanged otherwise; max_width is an upper bound
of the measured widths of all displayed lines, attained whenever a line
exists, and 0 on empty input. -/
theorem c6_styled_and_max_width (measure : Str → Nat × Nat) (raw : List Str) :
    (∀ i, i < raw.length →
      (styleLines raw).getD i [] =
        if i < 3 then PROMPT ++ raw.getD i [] else raw.getD i []) ∧
    (raw = [] → maxWidth measure (styleLines raw) = 0) ∧
    (∀ s ∈ styleLines raw, (measure s).1 ≤ maxWidth measure (styleLines raw)) ∧
    (∀ s₀ ∈ styleLines raw, ∃ s ∈ styleLines raw,
      maxWidth measure (styleLines raw) = (measure s).1) := by
  refine ⟨?_, ?_, ?_, ?_⟩
  · intro i hlen
    have hs := styleGo_getD raw 0 i hlen
    simpa using hs
  · intro h; subst h; rfl
  · intro s hs
    exact maxWidth_mem_le measure (styleLines raw) s hs
  · intro s₀ hs₀
    rcases maxWidth_attained measure (styleLines raw) with h | ⟨x, hx, hq⟩
    · have hle := maxWidth_mem_le measure (styleLines raw) s₀ hs₀
      exact ⟨s₀, hs₀, by omega⟩
    · exact ⟨x, hx, hq⟩

/-- C6 (witness): the statement evaluated on a four-line input. -/
theorem c6_styled_and_max_width_witness :
    ((styleLines [['a'], ['b'], ['c'], ['d']]).getD 3 [] =
      if 3 < 3 then PROMPT ++ [['a'], ['b'], ['c'], ['d']].getD 3 []
      else [['a'], ['b'], ['c'], ['d']].getD 3 []) ∧
    (measureConst 7 2 ['$', ' ', 'a']).1 ≤
      maxWidth (measureConst 7 2) (styleLines [['a'], ['b'], ['c'], ['d']]) := by
  have h := c6_styled_and_max_width (measureConst 7 2) [['a'], ['b'], ['c'], ['d']]
  exact ⟨h.1 3 (by decide), h.2.2.1 ['$', ' ', 'a'] (by decide)⟩

/-- C7: every produced page records the same image width, the global
maximum displayed-line width plus twice the padding. -/
theorem c7_page_image_width (measure : Str → Nat × Nat) (raw : List Str) (p : Page)
    (hp : p ∈ mainPages measure raw) :
    p.imageWidth = maxWidth measure (styleLines raw) + PADDING * 2 := by
  simp only [mainPages] at hp
  exact paginateLoop_mem_imageWidth _ _ _ _ _ _ _ _ p hp

/-- C7 (witness): the image-width property evaluated on a one-line
input. -/
theorem c7_page_image_width_witness :
    (⟨1, 0, [['$', ' ', 'a']], 49, 43⟩ : Page) ∈ mainPages (measureConst 3 4) [['a']] ∧
    (⟨1, 0, [['$', ' ', 'a']], 49, 43⟩ : Page).imageWidth =
      maxWidth (measureConst 3 4) (styleLines [['a']]) + PADDING * 2 :=
  ⟨by decide, c7_page_image_width (measureConst 3 4) [['a']] _ (by decide)⟩

/-- C8: pagination terminates: the run produces at most one page per
input line, and the inner loop always consumes at least the first
remaining line (the escape clause adds the first line of a page
unconditionally). -/
theorem c8_pagination_terminates (measure : Str → Nat × Nat) (raw : List Str) :
    (mainPages measure raw).length ≤ raw.length ∧
    ∀ (x : Str × Nat) (rest : List (Str × Nat)) (acc : Nat),
      (fillPage LINE_SPACING MAX_IMAGE_HEIGHT (x :: rest) acc []).2.2.length < (x :: rest).length := by
  refine ⟨mainPages_length_le measure raw, ?_⟩
  intro x rest acc
  rw [fillPage_cons_nil]
  have h := fillPage_rem_length LINE_SPACING MAX_IMAGE_HEIGHT rest (acc + (x.2 + LINE_SPACING)) [x.1]
  simp only [List.length_cons]
  omega

/-- C9: when the input transcript is missing the run prints a diagnostic
to stderr, exits with a non-zero status, and writes no image file,
whether or not the output directory already existed. -/
theorem c9_missing_input (measure : Str → Nat × Nat) (dirExists : Bool) :
    (Effect.printErr ("Error: Input file '".toList ++ INPUT_FILE ++ "' not found.".toList) ∈
        mainEffects measure none dirExists) ∧
    (∃ c, Effect.exitCode c ∈ mainEffects measure none dirExists ∧ 0 < c) ∧
    (mainEffects measure none dirExists).filter Effect.isSave = [] := by
  cases dirExists
  · rw [mainEffects_none_false]
    exact ⟨by decide, ⟨1, by decide, by decide⟩, by decide⟩
  · rw [mainEffects_none_true]
    exact ⟨by decide, ⟨1, by decide, by decide⟩, by decide⟩

/-- C10: the output prefix has a nonempty directory component, and on a
run with the input file missing and the output directory absent, the
directory-creation effect is the first effect of the trace, before the
failure diagnostics: the directory is created even though the run
fails. -/
theorem c10_makedirs_first (measure : Str → Nat × Nat) :
    dirnameList OUTPUT_FILE_BASE = "output".toList ∧
    0 < (dirnameList OUTPUT_FILE_BASE).length ∧
    mainEffects measure none false =
      Effect.makedirs (dirnameList OUTPUT_FILE_BASE) ::
        [.printErr ("Error: Input file '".toList ++ INPUT_FILE ++ "' not found.".toList),
         .exitCode 1] :=
  ⟨rfl, by decide, rfl⟩
